import Mathlib

/-!
Shallow embedding of the m3u8 downloader core
(`src/playlist.rs`, `src/downloader.rs`, `src/crypto.rs`).

Conventions:
* Rust byte buffers (`Vec<u8>`, `&[u8]`) are `List Nat` whose elements are
  byte values; machine integers are `Nat`.
* `Url` is kept abstract as a string; the `url` crate's `Url::join` and
  `Url::parse` are external collaborators and appear as explicit function
  parameters (`join`, `parseAbs`) of the embedded definitions.
* Network and filesystem interaction is modelled by explicit oracles
  (functions supplied as arguments) plus an effect trace.
-/

namespace M3u8

/-- A URL, kept abstract (the `url` crate is an external collaborator). -/
abbrev Url := String

/-! ## Variant selection (`src/playlist.rs`, `fetch_and_parse_playlist`) -/

/-- One entry of a master playlist (field of `m3u8_rs::MasterPlaylist`):
`{uri, bandwidth}`. -/
structure Variant where
  uri : String
  bandwidth : Nat
  deriving Repr, DecidableEq

/-- Rust's `Iterator::max_by_key` semantics: fold keeping the current
element, replacing it whenever a later element's key is `≥` the kept key
(so among equal maximal keys the LAST element wins); `none` on an empty
iterator.  This embeds `pl.variants.iter().max_by_key(|v| v.bandwidth)`. -/
def maxByKey {α : Type} (key : α → Nat) : List α → Option α
  | [] => none
  | x :: xs => some (xs.foldl (fun acc y => if key acc ≤ key y then y else acc) x)

/-- Source `src/playlist.rs` lines 31-33: choose the best variant of a master
playlist by maximal bandwidth. -/
def select_best_variant (variants : List Variant) : Option Variant :=
  maxByKey (fun v => v.bandwidth) variants

/-! ## Key/IV length normalization (`src/downloader.rs` lines 87-107) -/

/-- Source `src/downloader.rs` lines 89-94 (and identically 102-107): force a byte
buffer to exactly 16 bytes — `truncate(16)` keeps the leading 16 bytes when
longer, `resize(16, 0)` appends zero bytes when shorter. -/
def normalize16 (b : List Nat) : List Nat :=
  if b.length > 16 then b.take 16
  else if b.length < 16 then b ++ List.replicate (16 - b.length) 0
  else b

theorem normalize16_length (b : List Nat) : (normalize16 b).length = 16 := by
  unfold normalize16
  split
  · simp [List.length_take]; omega
  · split
    · simp; omega
    · omega

/-! ## Retry policy (`src/downloader.rs`, `download_segment` and
`is_retryable_error`) -/

/-- Failure of one download attempt, as `is_retryable_error` can observe it
after `downcast_ref::<reqwest::Error>()`:
* `timeout` — a reqwest error with `is_timeout()`;
* `connect` — a reqwest error with `is_connect()`;
* `status n` — a reqwest error carrying HTTP status `n`
  (produced by `error_for_status()`);
* `decrypt` — a decryption failure (not a reqwest error);
* `ioFail` — a local filesystem failure (not a reqwest error);
* `otherErr` — any other failure (not a reqwest error). -/
inductive DlError where
  | timeout
  | connect
  | status (n : Nat)
  | decrypt
  | ioFail
  | otherErr
  deriving Repr, DecidableEq

/-- Source `src/downloader.rs` lines 209-229: a failure is retryable iff it is a
reqwest timeout or connect error, or carries a 5xx status
(`status.is_server_error()`, i.e. 500-599), or status 429. -/
def is_retryable_error (e : DlError) : Bool :=
  match e with
  | .timeout => true
  | .connect => true
  | .status n => (500 ≤ n && n ≤ 599) || n == 429
  | _ => false

/-- Observable side effects of the downloader, recorded as a trace:
a network GET (`client.get(..).send()`), a successful `File::create`
(which leaves an empty file at the path), and a successful
`write_all` (which leaves the full buffered content at the path). -/
inductive Effect where
  | netGet (u : Url)
  | fsCreate (p : String)
  | fsWrite (p : String) (content : List Nat)
  deriving Repr, DecidableEq

/-- Outcome of one call of `try_download_segment`: a panic propagated out
of `decrypt_data`, an `Err(e)`, or `Ok(())`. -/
inductive TryOutcome where
  | panicked
  | failed (e : DlError)
  | succeeded
  deriving Repr, DecidableEq

/-- The retry loop of `download_segment` (`src/downloader.rs` lines
155-178), abstracted over the outcome and effect trace of each attempt of
`try_download_segment` (`att k` is the result of the `k`-th attempt,
1-indexed).  `remaining` counts attempts still allowed, `done` attempts
already performed, `lastErr` mirrors the `last_error` variable.  Returns
the loop's result, the number of attempts performed, and the accumulated
effect trace.  Mirrors the source exactly: on a retryable failure at the
final attempt the loop `break`s WITHOUT updating `last_error`, and the
error returned after the loop is `last_error` (falling back to the
generic "failed after N retries" message, modelled as `otherErr`). -/
def runAttempts (att : Nat → TryOutcome × List Effect) :
    Nat → Nat → Option DlError → List Effect → (TryOutcome × Nat) × List Effect
  | 0, done, lastErr, effs => ((.failed (lastErr.getD .otherErr), done), effs)
  | remaining + 1, done, lastErr, effs =>
    match att (done + 1) with
    | (.panicked, effs1) => ((.panicked, done + 1), effs ++ effs1)
    | (.succeeded, effs1) => ((.succeeded, done + 1), effs ++ effs1)
    | (.failed e, effs1) =>
      if is_retryable_error e then
        if 0 < remaining then
          runAttempts att remaining (done + 1) (some e) (effs ++ effs1)
        else
          ((.failed (lastErr.getD .otherErr), done + 1), effs ++ effs1)
      else
        ((.failed e, done + 1), effs ++ effs1)

/-- Source `src/downloader.rs` line 155: `MAX_RETRIES = 3`. -/
def MAX_RETRIES : Nat := 3

/-- The function `download_segment` (`src/downloader.rs` lines 148-179) as a function of
the per-attempt outcomes: run the retry loop with 3 total attempts. -/
def download_segment (att : Nat → TryOutcome × List Effect) :
    (TryOutcome × Nat) × List Effect :=
  runAttempts att MAX_RETRIES 0 none []

/-! ## Default IV derivation (`src/downloader.rs` lines 95-99) -/

/-- The hex digits of `format!("{:032x}", i)` — the 32-character
zero-padded lowercase hexadecimal rendering of `i`, most significant digit
first, given as digit values (the source formats a `usize`, so `i < 2^64 <
16^32` and exactly 32 digits are produced). -/
def hex32Digits (i : Nat) : List Nat :=
  (List.range 32).map (fun k => i / 16 ^ (31 - k) % 16)

/-- Model of `hex::decode`: pair up consecutive hex digit values into bytes. -/
def hexPairsToBytes : List Nat → List Nat
  | d1 :: d2 :: rest => (16 * d1 + d2) :: hexPairsToBytes rest
  | _ => []

/-- The default IV synthesized for chunk index `i` when the key descriptor
carries no IV: `format!("0x{:032x}", i)`, `trim_start_matches("0x")`, then
`hex::decode` (`src/downloader.rs` lines 95-99). -/
def default_iv (i : Nat) : List Nat :=
  hexPairsToBytes (hex32Digits i)

/-- The 16-byte big-endian encoding of the integer `i` (the spec's
description of the derived IV). -/
def beBytes16 (i : Nat) : List Nat :=
  (List.range 16).map (fun k => i / 256 ^ (15 - k) % 256)

/-! ## Decryption (`src/crypto.rs`, `decrypt_data`)

The AES-128 block permutation itself lives in the external `aes` crate, so
the embedding is parametric in a single-block decryption function
`blockDec : key → block → block`.  What `src/crypto.rs` contributes — and
what the claims are about — is the outer structure: the
slice-to-`GenericArray` conversions `key.into()` / `iv.into()` assert the
slice length is exactly 16 and abort (panic) otherwise, and
`decrypt_padded_mut::<Pkcs7>` walks the buffer in 16-byte CBC blocks and
strips PKCS#7 padding, returning `UnpadError` when the buffer length is
not a block multiple or the padding bytes are malformed. -/

/-- Result of running `decrypt_data`: a panic (process abort from the
length assertion in the slice conversion), a returned `Err`, or the
decrypted bytes. -/
inductive DecResult where
  | panicked
  | err
  | ok (plain : List Nat)
  deriving Repr, DecidableEq

/-- Byte-wise xor of two 16-byte blocks. -/
def xorBlock (a b : List Nat) : List Nat :=
  List.zipWith (fun x y => Nat.xor x y) a b

/-- Block loop of CBC-mode decryption, structurally recursive on a fuel
that bounds the number of remaining bytes (each step consumes at least one
byte, so `fuel = data.length` never runs out). -/
def cbcBlocks (blockDec : List Nat → List Nat → List Nat)
    (key : List Nat) : Nat → List Nat → List Nat → List Nat
  | 0, _, _ => []
  | fuel + 1, prev, data =>
    if data = [] then []
    else
      let c := data.take 16
      xorBlock (blockDec key c) prev ++
        cbcBlocks blockDec key fuel c (data.drop 16)

/-- CBC-mode decryption: split into 16-byte blocks; each plaintext block is
`blockDec key c_i` xored with the previous ciphertext block (the IV for the
first block). -/
def cbcDecrypt (blockDec : List Nat → List Nat → List Nat)
    (key iv data : List Nat) : List Nat :=
  cbcBlocks blockDec key data.length iv data

/-- PKCS#7 unpadding: the last byte `n` must satisfy `1 ≤ n ≤ 16` and the
final `n` bytes must all equal `n`; strip them.  `none` on an empty buffer
or malformed padding. -/
def pkcs7Unpad (p : List Nat) : Option (List Nat) :=
  match p.getLast? with
  | none => none
  | some n =>
    if 1 ≤ n ∧ n ≤ 16 ∧ n ≤ p.length ∧ (p.drop (p.length - n)).all (fun b => b = n) then
      some (p.take (p.length - n))
    else none

/-- Model of `decrypt_data` (`src/crypto.rs` lines 4-16), parametric in the AES-128
block decryption `blockDec`.  `Decryptor::new(key.into(), iv.into())`
panics unless both slices are exactly 16 bytes; then
`decrypt_padded_mut::<Pkcs7>` fails (`Err`) when the data length is not a
multiple of 16 or the PKCS#7 padding is invalid, else yields the unpadded
plaintext. -/
def decrypt_data (blockDec : List Nat → List Nat → List Nat)
    (encrypted_data key iv : List Nat) : DecResult :=
  if key.length ≠ 16 ∨ iv.length ≠ 16 then .panicked
  else if encrypted_data.length % 16 ≠ 0 then .err
  else
    match pkcs7Unpad (cbcDecrypt blockDec key iv encrypted_data) with
    | none => .err
    | some plain => .ok plain

/-! ## One download attempt (`src/downloader.rs`, `try_download_segment`,
lines 182-206)

The network response and the outcomes of the two filesystem calls are
oracle inputs: `fetchRes` is the fully buffered response body (the chunk
loop of lines 190-194) or the transport/status failure of lines 189-192,
`createOk` tells whether `File::create` succeeds, `writeOk` whether
`write_all` succeeds.  A successful `File::create` truncates the path to
an empty file before any byte is written; `write_all` is modelled as
all-or-nothing (even so the create/write split is observable). -/

def try_download_segment (blockDec : List Nat → List Nat → List Nat)
    (fetchRes : Except DlError (List Nat)) (createOk writeOk : Bool)
    (url : Url) (path : String) (key iv : Option (List Nat)) :
    TryOutcome × List Effect :=
  match fetchRes with
  | .error e => (.failed e, [.netGet url])
  | .ok body =>
    let dec : DecResult :=
      match key, iv with
      | some k, some v => decrypt_data blockDec body k v
      | _, _ => .ok body
    match dec with
    | .panicked => (.panicked, [.netGet url])
    | .err => (.failed .decrypt, [.netGet url])
    | .ok data =>
      if createOk then
        if writeOk then (.succeeded, [.netGet url, .fsCreate path, .fsWrite path data])
        else (.failed .ioFail, [.netGet url, .fsCreate path])
      else (.failed .ioFail, [.netGet url])

/-- Replay an effect trace against the file at `path`: `none` means no
file exists there, `some c` a file with content `c`. -/
def fileAfter (path : String) (init : Option (List Nat)) :
    List Effect → Option (List Nat)
  | [] => init
  | .netGet _ :: rest => fileAfter path init rest
  | .fsCreate p :: rest => fileAfter path (if p = path then some [] else init) rest
  | .fsWrite p c :: rest => fileAfter path (if p = path then some c else init) rest

/-! ## Per-chunk key material (`src/downloader.rs` lines 70-111) -/

/-- Structure `KeyInfo` (`src/playlist.rs` lines 9-14).  The `iv` field holds the
hex string stored by `fetch_and_parse_playlist` (`hex::encode` of the
manifest's IV bytes), represented as the list of its hex-digit values. -/
structure KeyInfo where
  method : String
  uri : String
  iv : Option (List Nat)
  deriving Repr, DecidableEq

/-- Model of `hex::decode`: succeeds on an even-length string of valid hex digits,
pairing consecutive digits into bytes. -/
def hexDecode (digits : List Nat) : Option (List Nat) :=
  if digits.length % 2 = 0 ∧ digits.all (fun d => d < 16) then
    some (hexPairsToBytes digits)
  else none

/-- Model of `hex::encode`: two hex digits per byte, high nibble first. -/
def hexEncode (bytes : List Nat) : List Nat :=
  bytes.flatMap (fun b => [b / 16 % 16, b % 16])

/-- Lines 70-108 of `src/downloader.rs`: resolve the key URL
(`Url::parse` on the descriptor URI, falling back to `base_url.join`),
fetch the key bytes, normalize them to 16 bytes, derive the IV (the
descriptor's hex string if present, else the 32-digit hex rendering of
the chunk index), decode and normalize it.  `parseAbs` and `join` stand
for the `url` crate, `keyFetch` for the network.  Returns the `(key, iv)`
pair together with the effect trace. -/
def resolve_key_iv (parseAbs : String → Option Url)
    (join : Url → String → Option Url)
    (keyFetch : Url → Except DlError (List Nat))
    (base : Url) (ki : KeyInfo) (i : Nat) :
    Except DlError (List Nat × List Nat) × List Effect :=
  match (match parseAbs ki.uri with
         | some u => some u
         | none => join base ki.uri) with
  | none => (.error .otherErr, [])
  | some keyUrl =>
    match keyFetch keyUrl with
    | .error e => (.error e, [.netGet keyUrl])
    | .ok kb =>
      let key_bytes := normalize16 kb
      let ivDigits := match ki.iv with
        | some ds => ds
        | none => hex32Digits i
      match hexDecode ivDigits with
      | none => (.error .otherErr, [.netGet keyUrl])
      | some ivb => (.ok (key_bytes, normalize16 ivb), [.netGet keyUrl])

/-! ## The per-chunk task (`src/downloader.rs` lines 63-131) -/

/-- Oracles for one run: the `url` crate, the network, the filesystem and
the AES block cipher.  `segFetch i k` is the body (or failure) the
network yields for segment `i` on attempt `k`; `createOk i k` and
`writeOk i k` the filesystem outcomes for that attempt. -/
structure RunEnv where
  parseAbs : String → Option Url
  join : Url → String → Option Url
  keyFetch : Url → Except DlError (List Nat)
  segFetch : Nat → Nat → Except DlError (List Nat)
  createOk : Nat → Nat → Bool
  writeOk : Nat → Nat → Bool
  fileExists : String → Bool
  blockDec : List Nat → List Nat → List Nat

/-- The spawned task for one segment (`src/downloader.rs` lines 63-131):
skip immediately when the output file already exists; otherwise resolve
key material (when a key descriptor exists) and run `download_segment`
with retries. -/
def segment_task (env : RunEnv) (base : Url) (ki : Option KeyInfo)
    (i : Nat) (segUrl : Url) (path : String) :
    TryOutcome × List Effect :=
  if env.fileExists path then (.succeeded, [])
  else
    match ki with
    | some k =>
      match resolve_key_iv env.parseAbs env.join env.keyFetch base k i with
      | (.error e, effs) => (.failed e, effs)
      | (.ok (kb, ivb), effs) =>
        let (r, effs2) := download_segment (fun att =>
          try_download_segment env.blockDec (env.segFetch i att)
            (env.createOk i att) (env.writeOk i att) segUrl path
            (some kb) (some ivb))
        (r.1, effs ++ effs2)
    | none =>
      let (r, effs2) := download_segment (fun att =>
        try_download_segment env.blockDec (env.segFetch i att)
          (env.createOk i att) (env.writeOk i att) segUrl path none none)
      (r.1, effs2)

/-! ## The whole run (`src/downloader.rs`, `download_segments`,
lines 17-145) -/

/-- The up-front URI-resolution loop (`src/downloader.rs` lines 36-52):
join every segment URI against the base URL, pairing it with its index
and output path `index{i}.ts`; the FIRST failing join aborts with `none`
(the source `return`s a one-element error vector there). -/
def resolve_segments_info (join : Url → String → Option Url) (base : Url)
    (outputDir : String) : List String → Nat →
    Option (List (Nat × Url × String))
  | [], _ => some []
  | u :: rest, i =>
    match join base u with
    | none => none
    | some su =>
      (resolve_segments_info join base outputDir rest (i + 1)).map
        (fun l => (i, su, outputDir ++ "/index" ++ toString i ++ ".ts") :: l)

/-- Model of `download_segments` (`src/downloader.rs` lines 17-145): resolve all
segment URIs up front — on any failure return a single-element error
vector having performed no effect — then run one task per segment and
collect the outcomes.  `buffer_unordered` only bounds concurrency; the
per-task results and effects are those of `segment_task`. -/
def download_segments (env : RunEnv) (base : Url) (uris : List String)
    (outputDir : String) (ki : Option KeyInfo) :
    List TryOutcome × List Effect :=
  match resolve_segments_info env.join base outputDir uris 0 with
  | none => ([.failed .otherErr], [])
  | some infos =>
    ((infos.map fun info => (segment_task env base ki info.1 info.2.1 info.2.2).1),
     (infos.map fun info => (segment_task env base ki info.1 info.2.1 info.2.2).2).flatten)

/-! ## Manifest resolution (`src/playlist.rs`, `fetch_and_parse_playlist`)

The external `m3u8_rs` parser yields either a master playlist (variants)
or a media playlist (segments); fetching and parsing are combined into
one oracle `fetchParse`, redirects into `finalUrl` (the `response.url()`
seen after a successful fetch). -/

/-- A segment key as the `m3u8_rs` parser produces it (`segment.key`):
method, optional URI, optional raw IV bytes. -/
structure SegKey where
  method : String
  uri : Option String
  iv : Option (List Nat)
  deriving Repr, DecidableEq

/-- One `m3u8_rs::MediaSegment`, restricted to the fields the program
reads: its URI and optional key. -/
structure MediaSeg where
  uri : String
  key : Option SegKey
  deriving Repr, DecidableEq

/-- Source `src/playlist.rs` lines 43-50: the run's key descriptor is built from
the FIRST segment carrying a key (`find_map`), with the key URI defaulted
to `""` and the IV hex-encoded. -/
def key_info_of (segs : List MediaSeg) : Option KeyInfo :=
  (segs.findSome? (fun s => s.key)).map
    (fun k => ⟨k.method, k.uri.getD (""), k.iv.map hexEncode⟩)

/-- What one fetch-and-parse of a URL can yield: a transport / status
failure (line 20), a parse failure (lines 24-25), or a parsed playlist. -/
inductive ParseOutcome where
  | fetchFail
  | parseFail
  | master (variants : List Variant)
  | media (segs : List MediaSeg)

/-- Result of the whole resolution: an error (any of the `?`/`Err` exits)
or the media playlist's segments, final URL and key descriptor. -/
abbrev ResolveResult := Except Unit (List MediaSeg × Url × Option KeyInfo)

/-- One unfolding of `fetch_and_parse_playlist` (`src/playlist.rs` lines
17-54): either the function returns (`done`) or it recurses on the chosen
variant's URL (`recurse`, line 39). -/
inductive StepRes where
  | done (r : ResolveResult)
  | recurse (u : Url)

/-- The body of `fetch_and_parse_playlist` up to the recursive call:
fetch/parse failures and the empty-variant case return errors; a master
playlist selects the best variant, joins its URI against the final fetch
URL (failure of `join` is the `?` on line 37) and recurses; a media
playlist returns its data. -/
def resolveStep (fetchParse : Url → ParseOutcome) (finalUrl : Url → Url)
    (join : Url → String → Option Url) (url : Url) : StepRes :=
  match fetchParse url with
  | .fetchFail => .done (.error ())
  | .parseFail => .done (.error ())
  | .master variants =>
    match select_best_variant variants with
    | none => .done (.error ())
    | some v =>
      match join (finalUrl url) v.uri with
      | none => .done (.error ())
      | some u2 => .recurse u2
  | .media segs => .done (.ok (segs, finalUrl url, key_info_of segs))

/-- The resolver `fetch_and_parse_playlist` instrumented with fuel: `none` means the
recursion is still running after `fuel` nested calls (the source has no
depth cap, so `none` for every fuel is genuine non-termination). -/
def resolveFuel (fetchParse : Url → ParseOutcome) (finalUrl : Url → Url)
    (join : Url → String → Option Url) : Nat → Url → Option ResolveResult
  | 0, _ => none
  | fuel + 1, url =>
    match resolveStep fetchParse finalUrl join url with
    | .done r => some r
    | .recurse u2 => resolveFuel fetchParse finalUrl join fuel u2

/-- The chain of URLs the recursion visits (absorbing once it returns). -/
def resolveChain (fetchParse : Url → ParseOutcome) (finalUrl : Url → Url)
    (join : Url → String → Option Url) (url : Url) : Nat → Url
  | 0 => url
  | d + 1 =>
    match resolveStep fetchParse finalUrl join
        (resolveChain fetchParse finalUrl join url d) with
    | .recurse u2 => u2
    | .done _ => resolveChain fetchParse finalUrl join url d

/-- Divergence predicate: `fetch_and_parse_playlist` diverges from `url` — no amount of fuel
makes it return. -/
def divergesFrom (fetchParse : Url → ParseOutcome) (finalUrl : Url → Url)
    (join : Url → String → Option Url) (url : Url) : Prop :=
  ∀ fuel, resolveFuel fetchParse finalUrl join fuel url = none

/-! ## Theorems -/

/-- C2: every fetched key byte sequence and every decoded IV byte sequence
is normalized to exactly 16 bytes — truncated to its leading 16 bytes when
longer than 16, zero-padded at the tail when shorter (so inputs of length
10, 16 and 40 all yield exactly 16 bytes). -/
theorem c2_key_iv_normalized_to_16 (b : List Nat) :
    (normalize16 b).length = 16
    ∧ (16 ≤ b.length → normalize16 b = b.take 16)
    ∧ (b.length < 16 → normalize16 b = b ++ List.replicate (16 - b.length) 0) := by
  refine ⟨normalize16_length b, ?_, ?_⟩
  · intro h
    unfold normalize16
    split
    · rfl
    · split
      · omega
      · have : b.length = 16 := by omega
        rw [← this, List.take_length]
  · intro h
    unfold normalize16
    rw [if_neg (by omega), if_pos h]

/-- C2 witness: concrete inputs of lengths 10, 16 and 40. -/
theorem c2_key_iv_normalized_to_16_witness :
    (normalize16 (List.replicate 10 7)).length = 16
    ∧ normalize16 (List.replicate 40 9) = (List.replicate 40 9).take 16
    ∧ normalize16 (List.replicate 16 3) = (List.replicate 16 3).take 16
    ∧ normalize16 (List.replicate 10 7) =
        List.replicate 10 7 ++ List.replicate (16 - (List.replicate 10 7).length) 0 :=
  ⟨(c2_key_iv_normalized_to_16 (List.replicate 10 7)).1,
   (c2_key_iv_normalized_to_16 (List.replicate 40 9)).2.1 (by decide),
   (c2_key_iv_normalized_to_16 (List.replicate 16 3)).2.1 (by decide),
   (c2_key_iv_normalized_to_16 (List.replicate 10 7)).2.2 (by decide)⟩

/-- Grouping two base-16 digits yields one base-256 digit. -/
theorem hexPair_as_byte (i m : Nat) :
    16 * (i / 16 ^ (2 * m + 1) % 16) + i / 16 ^ (2 * m) % 16 =
      i / 256 ^ m % 256 := by
  have h1 : (256 : Nat) ^ m = 16 ^ (2 * m) := by
    rw [show (256 : Nat) = 16 ^ 2 by norm_num, ← pow_mul]
  have h2 : (16 : Nat) ^ (2 * m + 1) = 16 ^ (2 * m) * 16 := by
    rw [pow_succ]
  rw [h1, h2, ← Nat.div_div_eq_div_mul]
  generalize i / 16 ^ (2 * m) = q
  omega

/-- C4: for every chunk index `i`, the default IV synthesized when the key
descriptor has no explicit IV — the 32-hex-digit zero-padded rendering of
`i`, decoded to bytes — equals the 16-byte big-endian encoding of `i`; in
particular, for index 5 it is fifteen zero bytes followed by the byte 5. -/
theorem c4_default_iv_is_big_endian_index :
    (∀ i, default_iv i = beBytes16 i ∧ (default_iv i).length = 16)
    ∧ default_iv 5 = [0, 0, 0, 0, 0, 0, 0, 0, 0, 0, 0, 0, 0, 0, 0, 5] := by
  have key : ∀ i, default_iv i = beBytes16 i := by
    intro i
    unfold default_iv hex32Digits beBytes16
    rw [show List.range 32 =
        [0,1,2,3,4,5,6,7,8,9,10,11,12,13,14,15,16,17,18,19,20,21,22,23,
         24,25,26,27,28,29,30,31] by rfl,
      show List.range 16 = [0,1,2,3,4,5,6,7,8,9,10,11,12,13,14,15] by rfl]
    simp only [List.map_cons, List.map_nil]
    simp only [hexPairsToBytes]
    norm_num
    have h0 := hexPair_as_byte i 0
    norm_num at h0
    exact ⟨hexPair_as_byte i 15, hexPair_as_byte i 14, hexPair_as_byte i 13,
      hexPair_as_byte i 12, hexPair_as_byte i 11, hexPair_as_byte i 10,
      hexPair_as_byte i 9, hexPair_as_byte i 8, hexPair_as_byte i 7,
      hexPair_as_byte i 6, hexPair_as_byte i 5, hexPair_as_byte i 4,
      hexPair_as_byte i 3, hexPair_as_byte i 2, hexPair_as_byte i 1, h0⟩
  refine ⟨fun i => ⟨key i, ?_⟩, by decide⟩
  rw [key i]
  unfold beBytes16
  simp

/-- The retry loop performs at most `remaining` further attempts. -/
theorem runAttempts_count_le (att : Nat → TryOutcome × List Effect) :
    ∀ remaining done lastErr effs,
      ((runAttempts att remaining done lastErr effs).1.2) ≤ done + remaining := by
  intro remaining
  induction remaining with
  | zero => intro done lastErr effs; simp [runAttempts]
  | succ n ih =>
    intro done lastErr effs
    rcases h : att (done + 1) with ⟨o, f⟩
    unfold runAttempts
    rw [h]
    cases o with
    | panicked => simp
    | succeeded => simp
    | failed e =>
      simp only []
      split
      · split
        · have := ih (done + 1) (some e) (effs ++ f)
          omega
        · simp
      · simp

/-- C3: the downloader makes at most 3 total attempts per chunk; a failure
classified retryable — connection failure, timeout, any 5xx status, or
429 — is retried, every other failure is returned after exactly one
attempt; a fetch that always fails with 503 is attempted exactly 3 times
and then reported failed, one that always fails with 404 exactly once. -/
theorem c3_retry_policy (att : Nat → TryOutcome × List Effect) :
    ((download_segment att).1.2 ≤ 3)
    ∧ (∀ e, (att 1).1 = .failed e → is_retryable_error e = false →
        (download_segment att).1 = (.failed e, 1))
    ∧ ((∀ k, (att k).1 = .failed (.status 503)) →
        (download_segment att).1 = (.failed (.status 503), 3))
    ∧ ((∀ k, (att k).1 = .failed (.status 404)) →
        (download_segment att).1 = (.failed (.status 404), 1))
    ∧ (∀ e, is_retryable_error e = true ↔
        (e = .timeout ∨ e = .connect ∨
          ∃ n, e = .status n ∧ ((500 ≤ n ∧ n ≤ 599) ∨ n = 429))) := by
  refine ⟨runAttempts_count_le att 3 0 none [], ?_, ?_, ?_, ?_⟩
  · intro e h1 hr
    rcases ha : att 1 with ⟨o, f⟩
    rw [ha] at h1
    simp at h1
    subst h1
    simp [download_segment, MAX_RETRIES, runAttempts, ha, hr]
  · intro hall
    rcases ha1 : att 1 with ⟨o1, f1⟩
    rcases ha2 : att 2 with ⟨o2, f2⟩
    rcases ha3 : att 3 with ⟨o3, f3⟩
    have h1 := hall 1; have h2 := hall 2; have h3 := hall 3
    rw [ha1] at h1; rw [ha2] at h2; rw [ha3] at h3
    simp at h1 h2 h3
    subst h1; subst h2; subst h3
    simp [download_segment, MAX_RETRIES, runAttempts, ha1, ha2, ha3,
      is_retryable_error]
  · intro hall
    rcases ha1 : att 1 with ⟨o1, f1⟩
    have h1 := hall 1
    rw [ha1] at h1
    simp at h1
    subst h1
    simp [download_segment, MAX_RETRIES, runAttempts, ha1, is_retryable_error]
  · intro e
    cases e with
    | timeout => simp [is_retryable_error]
    | connect => simp [is_retryable_error]
    | status n => simp [is_retryable_error]
    | decrypt => simp [is_retryable_error]
    | ioFail => simp [is_retryable_error]
    | otherErr => simp [is_retryable_error]

/-- C3 witness: concrete attempt oracles that always fail with 503
(3 attempts) and always fail with 404 (1 attempt). -/
theorem c3_retry_policy_witness :
    (download_segment (fun _ => (.failed (.status 503), []))).1 =
      (.failed (.status 503), 3)
    ∧ (download_segment (fun _ => (.failed (.status 404), []))).1 =
      (.failed (.status 404), 1)
    ∧ (download_segment (fun _ => (.failed .decrypt, []))).1 =
      (.failed .decrypt, 1) :=
  ⟨(c3_retry_policy (fun _ => (.failed (.status 503), []))).2.2.1 (fun _ => rfl),
   (c3_retry_policy (fun _ => (.failed (.status 404), []))).2.2.2.1 (fun _ => rfl),
   (c3_retry_policy (fun _ => (.failed .decrypt, []))).2.1 .decrypt rfl rfl⟩

/-- C6: when the chunk's output artifact already exists, the task returns
success immediately with an empty effect trace — no segment fetch, no key
fetch, no file operation — so the existing file is unchanged. -/
theorem c6_existing_artifact_skipped (env : RunEnv) (base : Url)
    (ki : Option KeyInfo) (i : Nat) (segUrl : Url) (path : String)
    (init : Option (List Nat)) (h : env.fileExists path = true) :
    segment_task env base ki i segUrl path = (.succeeded, [])
    ∧ fileAfter path init (segment_task env base ki i segUrl path).2 = init := by
  have hres : segment_task env base ki i segUrl path = (.succeeded, []) := by
    unfold segment_task
    rw [h]
    simp
  exact ⟨hres, by rw [hres]; rfl⟩

/-- A fixed oracle environment for concrete witnesses: the output file
always exists, every network access fails, every join fails. -/
def witnessEnvExists : RunEnv where
  parseAbs := fun _ => none
  join := fun _ _ => none
  keyFetch := fun _ => .error .otherErr
  segFetch := fun _ _ => .error .timeout
  createOk := fun _ _ => false
  writeOk := fun _ _ => false
  fileExists := fun _ => true
  blockDec := fun _ b => b

/-- C6 witness: a concrete environment whose file-existence check answers
`true`. -/
theorem c6_existing_artifact_skipped_witness :
    segment_task witnessEnvExists ("base") none 0 ("segurl") "dir/index0.ts" =
      (.succeeded, [])
    ∧ fileAfter ("dir/index0.ts") (some [1, 2, 3])
        (segment_task witnessEnvExists ("base") none 0 ("segurl") "dir/index0.ts").2 =
      some [1, 2, 3] :=
  c6_existing_artifact_skipped witnessEnvExists ("base") none 0 ("segurl")
    "dir/index0.ts" (some [1, 2, 3]) rfl

/-- A URI whose join against the base fails makes the up-front resolution
loop abort with `none`. -/
theorem resolve_segments_info_none (join : Url → String → Option Url)
    (base : Url) (dir : String) :
    ∀ (uris : List String) (i : Nat),
      (∃ u ∈ uris, join base u = none) →
      resolve_segments_info join base dir uris i = none := by
  intro uris
  induction uris with
  | nil => intro i h; simp at h
  | cons u rest ih =>
    intro i h
    unfold resolve_segments_info
    rcases h with ⟨u', hu', hj⟩
    rcases List.mem_cons.mp hu' with h1 | h1
    · subst h1
      rw [hj]
    · cases hju : join base u with
      | none => rfl
      | some su =>
        rw [ih (i + 1) ⟨u', h1, hj⟩]
        rfl

/-- C7: if any chunk URI fails to resolve against the base URL, the whole
run aborts up front with a single URI-resolution error: the result is a
one-element error vector, the effect trace is empty (no network call, no
task), and every file is untouched. -/
theorem c7_unresolvable_uri_fail_fast (env : RunEnv) (base : Url)
    (uris : List String) (dir : String) (ki : Option KeyInfo)
    (h : ∃ u ∈ uris, env.join base u = none) :
    download_segments env base uris dir ki = ([.failed .otherErr], [])
    ∧ (∀ path init,
        fileAfter path init (download_segments env base uris dir ki).2 = init) := by
  have hres : download_segments env base uris dir ki =
      ([.failed .otherErr], []) := by
    unfold download_segments
    rw [resolve_segments_info_none env.join base dir uris 0 h]
  exact ⟨hres, fun path init => by rw [hres]; rfl⟩

/-- C7 witness: a concrete run with an unresolvable URI. -/
theorem c7_unresolvable_uri_fail_fast_witness :
    download_segments witnessEnvExists ("base") ["seg1.ts"] "out" none =
      ([.failed .otherErr], [])
    ∧ fileAfter ("out/index0.ts") none
        (download_segments witnessEnvExists ("base") ["seg1.ts"] "out" none).2 =
      none :=
  ⟨(c7_unresolvable_uri_fail_fast witnessEnvExists ("base") ["seg1.ts"] "out" none
      ⟨"seg1.ts", by simp, rfl⟩).1,
   (c7_unresolvable_uri_fail_fast witnessEnvExists ("base") ["seg1.ts"] "out" none
      ⟨"seg1.ts", by simp, rfl⟩).2 ("out/index0.ts") none⟩

/-- C5 counterexample: an attempt whose fetch and decryption succeed but
whose `write_all` fails leaves an (empty) artifact at the output path —
`File::create` has already truncated/created the file before the single
write — so a failing attempt CAN leave a partially written output file. -/
theorem c5_counterexample :
    (try_download_segment (fun _ b => b) (.ok [1, 2, 3]) true false
        "u" "p" none none).1 = .failed .ioFail
    ∧ fileAfter ("p") none
        (try_download_segment (fun _ b => b) (.ok [1, 2, 3]) true false
          "u" "p" none none).2 = some []
    ∧ some ([] : List Nat) ≠ none := by
  refine ⟨rfl, rfl, by simp⟩

/-- C5 (amended): the response body is fully buffered (and decrypted)
before any file operation, so an attempt that fails at the fetch or the
decrypt stage leaves the output path untouched; only a failure of the
local create/write step itself can leave an artifact behind (and then the
failure is the local I/O error). -/
theorem c5_amended_buffered_write (blockDec : List Nat → List Nat → List Nat)
    (fetchRes : Except DlError (List Nat)) (createOk writeOk : Bool)
    (url : Url) (path : String) (key iv : Option (List Nat))
    (init : Option (List Nat)) :
    (∀ e, fetchRes = .error e →
      fileAfter path init
        (try_download_segment blockDec fetchRes createOk writeOk
          url path key iv).2 = init)
    ∧ ((try_download_segment blockDec fetchRes createOk writeOk
          url path key iv).1 = .failed .decrypt →
        fileAfter path init
          (try_download_segment blockDec fetchRes createOk writeOk
            url path key iv).2 = init)
    ∧ (∀ e, (try_download_segment blockDec fetchRes createOk writeOk
          url path key iv).1 = .failed e →
        fileAfter path init
          (try_download_segment blockDec fetchRes createOk writeOk
            url path key iv).2 ≠ init →
        e = .ioFail) := by
  refine ⟨?_, ?_, ?_⟩
  · intro e he
    subst he
    simp [try_download_segment, fileAfter]
  · intro hfail
    cases fetchRes with
    | error e => simp [try_download_segment, fileAfter]
    | ok body =>
      unfold try_download_segment at hfail ⊢
      rcases key with _ | k <;> rcases iv with _ | v <;> simp only [] at hfail ⊢
      · rcases createOk <;> rcases writeOk <;> simp at hfail
      · rcases createOk <;> rcases writeOk <;> simp at hfail
      · rcases createOk <;> rcases writeOk <;> simp at hfail
      · cases hdec : decrypt_data blockDec body k v with
        | panicked => rw [hdec] at hfail; simp at hfail
        | err => simp [fileAfter]
        | ok data =>
          rw [hdec] at hfail
          simp only [] at hfail
          rcases createOk <;> rcases writeOk <;> simp at hfail
  · intro e hfail hneq
    cases fetchRes with
    | error e' =>
      exfalso
      apply hneq
      simp [try_download_segment, fileAfter]
    | ok body =>
      unfold try_download_segment at hfail hneq
      rcases key with _ | k <;> rcases iv with _ | v <;>
        simp only [] at hfail hneq
      · rcases createOk <;> rcases writeOk <;> simp_all [fileAfter]
      · rcases createOk <;> rcases writeOk <;> simp_all [fileAfter]
      · rcases createOk <;> rcases writeOk <;> simp_all [fileAfter]
      · cases hdec : decrypt_data blockDec body k v with
        | panicked => rw [hdec] at hfail; simp at hfail
        | err =>
          exfalso
          apply hneq
          rw [hdec]
          simp [fileAfter]
        | ok data =>
          rw [hdec] at hfail hneq
          rcases createOk <;> rcases writeOk <;> simp_all [fileAfter]

/-- C5 witness: a fetch failure and a decrypt failure each leave the file
state unchanged. -/
theorem c5_amended_buffered_write_witness :
    fileAfter ("p") none
      (try_download_segment (fun _ b => b) (.error .timeout) true true
        "u" "p" none none).2 = none
    ∧ fileAfter ("p") (some [9])
        (try_download_segment (fun _ b => b) (.ok [1, 2, 3]) true true
          "u" "p" (some (List.replicate 16 0)) (some (List.replicate 16 0))).2 =
      some [9] :=
  ⟨(c5_amended_buffered_write (fun _ b => b) (.error .timeout) true true
      "u" "p" none none none).1 .timeout rfl,
   (c5_amended_buffered_write (fun _ b => b) (.ok [1, 2, 3]) true true
      "u" "p" (some (List.replicate 16 0)) (some (List.replicate 16 0))
      (some [9])).2.1 (by decide)⟩

/-- C10: `decrypt_data` panics (the `GenericArray` conversions assert the
slice length) for every key or IV slice whose length is not exactly 16,
whatever the data and cipher; when both are exactly 16 bytes it never
panics, and it fails with a decryption error exactly when the input length
is not a multiple of the block size or the PKCS#7 padding is invalid. -/
theorem c10_decrypt_data_panics_on_bad_lengths
    (blockDec : List Nat → List Nat → List Nat) (data key iv : List Nat) :
    (key.length ≠ 16 ∨ iv.length ≠ 16 →
      decrypt_data blockDec data key iv = .panicked)
    ∧ (key.length = 16 → iv.length = 16 →
        decrypt_data blockDec data key iv ≠ .panicked
        ∧ (decrypt_data blockDec data key iv = .err ↔
            data.length % 16 ≠ 0
            ∨ pkcs7Unpad (cbcDecrypt blockDec key iv data) = none)) := by
  constructor
  · intro h
    unfold decrypt_data
    rw [if_pos h]
  · intro hk hv
    unfold decrypt_data
    rw [if_neg (by omega)]
    constructor
    · split
      · simp
      · split <;> simp
    · constructor
      · intro h
        by_cases hm : data.length % 16 ≠ 0
        · exact Or.inl hm
        · rw [if_neg hm] at h
          refine Or.inr ?_
          cases hu : pkcs7Unpad (cbcDecrypt blockDec key iv data) with
          | none => rfl
          | some p => rw [hu] at h; simp at h
      · intro h
        rcases h with h | h
        · rw [if_pos h]
        · split
          · rfl
          · rw [h]

/-- C10 witness: a 15-byte key panics; with 16-byte key and IV the result
is never a panic, and a well-padded 16-byte block decrypts without
error while a 3-byte input is rejected. -/
theorem c10_decrypt_data_panics_on_bad_lengths_witness :
    decrypt_data (fun _ b => b) [1, 2, 3] (List.replicate 15 0)
      (List.replicate 16 0) = .panicked
    ∧ decrypt_data (fun _ b => b) (List.replicate 16 16)
        (List.replicate 16 0) (List.replicate 16 0) ≠ .panicked
    ∧ (decrypt_data (fun _ b => b) [1, 2, 3] (List.replicate 16 0)
        (List.replicate 16 0) = .err ↔
        ([1, 2, 3] : List Nat).length % 16 ≠ 0
        ∨ pkcs7Unpad (cbcDecrypt (fun _ b => b) (List.replicate 16 0)
            (List.replicate 16 0) [1, 2, 3]) = none) :=
  ⟨(c10_decrypt_data_panics_on_bad_lengths (fun _ b => b) [1, 2, 3]
      (List.replicate 15 0) (List.replicate 16 0)).1 (by decide),
   ((c10_decrypt_data_panics_on_bad_lengths (fun _ b => b)
      (List.replicate 16 16) (List.replicate 16 0)
      (List.replicate 16 0)).2 (by decide) (by decide)).1,
   ((c10_decrypt_data_panics_on_bad_lengths (fun _ b => b) [1, 2, 3]
      (List.replicate 16 0) (List.replicate 16 0)).2 (by decide) (by decide)).2⟩

/-- C9: the run's key descriptor is taken from the FIRST segment carrying
one; its `method` field is stored but never consulted — the whole run
behaves identically under any method string — and whenever key material
is present, CBC decryption is applied to the downloaded body before the
write (the persisted bytes are the `decrypt_data` output, whatever the
method said). -/
theorem c9_method_field_never_consulted :
    (∀ (env : RunEnv) (base : Url) (uris : List String) (dir : String)
        (ki : KeyInfo) (m : String),
      download_segments env base uris dir (some { ki with method := m }) =
        download_segments env base uris dir (some ki))
    ∧ (∀ (s : MediaSeg) (segs : List MediaSeg),
        key_info_of (s :: segs) =
          match s.key with
          | some k => some ⟨k.method, k.uri.getD (""), k.iv.map hexEncode⟩
          | none => key_info_of segs)
    ∧ (∀ (blockDec : List Nat → List Nat → List Nat)
        (body k v plain : List Nat) (url : Url) (path : String),
        decrypt_data blockDec body k v = .ok plain →
        try_download_segment blockDec (.ok body) true true url path
          (some k) (some v) =
          (.succeeded, [.netGet url, .fsCreate path, .fsWrite path plain])) := by
  refine ⟨?_, ?_, ?_⟩
  · intro env base uris dir ki m
    rfl
  · intro s segs
    cases hk : s.key <;> simp [key_info_of, List.findSome?_cons, hk]
  · intro blockDec body k v plain url path hdec
    unfold try_download_segment
    simp only []
    rw [hdec]
    simp

/-- C9 witness: a concrete body whose decryption yields the empty
plaintext; the persisted bytes are the decrypted ones, not the raw
ciphertext. -/
theorem c9_method_field_never_consulted_witness :
    try_download_segment (fun _ b => b) (.ok (List.replicate 16 16)) true true
      "u" "p" (some (List.replicate 16 0)) (some (List.replicate 16 0)) =
      (.succeeded, [.netGet ("u"), .fsCreate ("p"), .fsWrite ("p") []]) :=
  c9_method_field_never_consulted.2.2 (fun _ b => b) (List.replicate 16 16)
    (List.replicate 16 0) (List.replicate 16 0) [] "u" "p" (by decide)

/-- The fold underlying `max_by_key`: the result sits in the list, every
key is `≤` its key, and everything AFTER it is strictly smaller — i.e. it
is the last element attaining the maximal key. -/
theorem foldl_max_spec {α : Type} (key : α → Nat) :
    ∀ (xs : List α) (x : α),
      ∃ l1 l2,
        x :: xs =
          l1 ++ (xs.foldl (fun acc y => if key acc ≤ key y then y else acc) x) :: l2
        ∧ (∀ y ∈ x :: xs,
            key y ≤ key (xs.foldl (fun acc y => if key acc ≤ key y then y else acc) x))
        ∧ (∀ y ∈ l2,
            key y < key (xs.foldl (fun acc y => if key acc ≤ key y then y else acc) x)) := by
  intro xs
  induction xs with
  | nil =>
    intro x
    exact ⟨[], [], rfl, by simp, by simp⟩
  | cons y ys ih =>
    intro x
    have hfold : ∀ h : key x ≤ key y,
        (y :: ys).foldl (fun acc z => if key acc ≤ key z then z else acc) x =
          ys.foldl (fun acc z => if key acc ≤ key z then z else acc) y := by
      intro h
      simp only [List.foldl_cons, if_pos h]
    have hfold' : ∀ h : ¬ key x ≤ key y,
        (y :: ys).foldl (fun acc z => if key acc ≤ key z then z else acc) x =
          ys.foldl (fun acc z => if key acc ≤ key z then z else acc) x := by
      intro h
      simp only [List.foldl_cons, if_neg h]
    by_cases hxy : key x ≤ key y
    · obtain ⟨l1, l2, hdec, hmax, hstr⟩ := ih y
      refine ⟨x :: l1, l2, ?_, ?_, ?_⟩
      · rw [hfold hxy, List.cons_append, ← hdec]
      · intro z hz
        rw [hfold hxy]
        rcases List.mem_cons.mp hz with h1 | h1
        · subst h1
          exact le_trans hxy (hmax y (List.mem_cons_self y ys))
        · exact hmax z h1
      · intro z hz
        rw [hfold hxy]
        exact hstr z hz
    · obtain ⟨l1, l2, hdec, hmax, hstr⟩ := ih x
      cases l1 with
      | nil =>
        rw [List.nil_append] at hdec
        injection hdec with hx hys
        refine ⟨[], y :: ys, ?_, ?_, ?_⟩
        · rw [hfold' hxy, List.nil_append, ← hx]
        · intro z hz
          rw [hfold' hxy, ← hx]
          rcases List.mem_cons.mp hz with h1 | h1
          · subst h1; exact le_refl _
          · rcases List.mem_cons.mp h1 with h2 | h2
            · subst h2; omega
            · have hm := hmax z (List.mem_cons.mpr (Or.inr h2))
              rw [← hx] at hm
              exact hm
        · intro z hz
          rw [hfold' hxy, ← hx]
          rcases List.mem_cons.mp hz with h1 | h1
          · subst h1; omega
          · have hs := hstr z (hys ▸ h1)
            rw [← hx] at hs
            exact hs
      | cons a l1t =>
        rw [List.cons_append] at hdec
        injection hdec with ha hys
        refine ⟨x :: y :: l1t, l2, ?_, ?_, ?_⟩
        · rw [hfold' hxy]
          simp only [List.cons_append]
          rw [← hys]
        · intro z hz
          rw [hfold' hxy]
          rcases List.mem_cons.mp hz with h1 | h1
          · rw [h1]
            exact hmax x (List.mem_cons_self x ys)
          · rcases List.mem_cons.mp h1 with h2 | h2
            · rw [h2]
              have hm := hmax x (List.mem_cons_self x ys)
              omega
            · exact hmax z (List.mem_cons.mpr (Or.inr h2))
        · intro z hz
          rw [hfold' hxy]
          exact hstr z hz

/-- C1 counterexample: two variants tie at the maximal bandwidth; the
selected one is the SECOND (last-encountered), not the first-encountered
as the claim states (`Iterator::max_by_key` returns the last maximal
element). -/
theorem c1_counterexample_tie_selects_last :
    select_best_variant [⟨"first", 100⟩, ⟨"second", 100⟩] =
      some ⟨"second", 100⟩
    ∧ Variant.mk ("second") 100 ≠ Variant.mk ("first") 100 := by
  constructor
  · rfl
  · decide

/-- C1 (amended): for every non-empty variant set, resolution selects a
variant of maximal bandwidth, and when several variants share that
maximum it selects the LAST-encountered one (everything after the
selected variant has strictly smaller bandwidth); for bandwidths
{500, 2000, 1200} the 2000 variant is selected. -/
theorem c1_amended_max_bandwidth_last_tie :
    (∀ (variants : List Variant), variants ≠ [] →
      ∃ v l1 l2, select_best_variant variants = some v
        ∧ variants = l1 ++ v :: l2
        ∧ (∀ w ∈ variants, w.bandwidth ≤ v.bandwidth)
        ∧ (∀ w ∈ l2, w.bandwidth < v.bandwidth))
    ∧ select_best_variant [⟨"low", 500⟩, ⟨"high", 2000⟩, ⟨"mid", 1200⟩] =
        some ⟨"high", 2000⟩ := by
  constructor
  · intro variants hne
    cases variants with
    | nil => exact absurd rfl hne
    | cons x xs =>
      obtain ⟨l1, l2, hdec, hmax, hstr⟩ := foldl_max_spec (fun v => v.bandwidth) xs x
      exact ⟨_, l1, l2, rfl, hdec, hmax, hstr⟩
  · rfl

/-- C1 witness: the amended theorem applied to the spec's example list. -/
theorem c1_amended_max_bandwidth_last_tie_witness :
    ∃ v l1 l2,
      select_best_variant [⟨"low", 500⟩, ⟨"high", 2000⟩, ⟨"mid", 1200⟩] = some v
      ∧ [Variant.mk ("low") 500, Variant.mk ("high") 2000, Variant.mk ("mid") 1200] =
          l1 ++ v :: l2
      ∧ (∀ w ∈ [Variant.mk ("low") 500, Variant.mk ("high") 2000,
            Variant.mk ("mid") 1200], w.bandwidth ≤ v.bandwidth)
      ∧ (∀ w ∈ l2, w.bandwidth < v.bandwidth) :=
  c1_amended_max_bandwidth_last_tie.1
    [⟨"low", 500⟩, ⟨"high", 2000⟩, ⟨"mid", 1200⟩] (by decide)

/-- A fetch oracle that answers every URL with a one-variant master
playlist whose variant URI joins back to the same URL. -/
def selfMasterFetch : Url → ParseOutcome :=
  fun _ => .master [⟨"self", 100⟩]

/-- C8 counterexample: with a server that always serves a master playlist
referencing itself, `fetch_and_parse_playlist` recurses forever — no
amount of fuel makes it return — so resolution does NOT terminate for
every manifest graph (no recursion depth cap exists). -/
theorem c8_counterexample_master_cycle_diverges :
    divergesFrom selfMasterFetch (fun u => u) (fun b _ => some b)
      "playlist.m3u8" := by
  have hstep : resolveStep selfMasterFetch (fun u => u) (fun b _ => some b)
      "playlist.m3u8" = .recurse ("playlist.m3u8") := rfl
  intro fuel
  induction fuel with
  | zero => rfl
  | succ n ih =>
    unfold resolveFuel
    rw [hstep]
    exact ih

/-- Once the recursion steps from `url` to `u2`, the chains coincide with
a shift of one. -/
theorem resolveChain_shift (fp : Url → ParseOutcome) (fu : Url → Url)
    (j : Url → String → Option Url) (url u2 : Url)
    (hs : resolveStep fp fu j url = .recurse u2) :
    ∀ d, resolveChain fp fu j url (d + 1) = resolveChain fp fu j u2 d := by
  intro d
  induction d with
  | zero =>
    unfold resolveChain
    rw [show resolveChain fp fu j url 0 = url from rfl, hs]
  | succ n ih =>
    unfold resolveChain
    rw [ih]

/-- C8 (amended): resolution with `fuel` nested calls returns a value
exactly when the chain of visited URLs reaches a returning step (a media
playlist, a fetch/parse failure, an empty variant set, or a failing join)
within `fuel` steps; on an endless chain of master playlists it never
returns (the source enforces no recursion depth cap). -/
theorem c8_amended_terminates_iff_done_reached (fp : Url → ParseOutcome)
    (fu : Url → Url) (j : Url → String → Option Url) :
    ∀ (fuel : Nat) (url : Url),
      (∃ r, resolveFuel fp fu j fuel url = some r) ↔
      (∃ d, d < fuel ∧
        ∃ r, resolveStep fp fu j (resolveChain fp fu j url d) = .done r) := by
  intro fuel
  induction fuel with
  | zero =>
    intro url
    constructor
    · intro ⟨r, hr⟩
      exact absurd hr (by simp [resolveFuel])
    · intro ⟨d, hd, _⟩
      omega
  | succ n ih =>
    intro url
    cases hs : resolveStep fp fu j url with
    | done r0 =>
      constructor
      · intro _
        exact ⟨0, by omega, r0, by rw [show resolveChain fp fu j url 0 = url from rfl, hs]⟩
      · intro _
        exact ⟨r0, by unfold resolveFuel; rw [hs]⟩
    | recurse u2 =>
      have hfuel : resolveFuel fp fu j (n + 1) url = resolveFuel fp fu j n u2 := by
        show (match resolveStep fp fu j url with
              | .done r => some r
              | .recurse u2 => resolveFuel fp fu j n u2) =
            resolveFuel fp fu j n u2
        rw [hs]
      constructor
      · intro ⟨r, hr⟩
        rw [hfuel] at hr
        obtain ⟨d, hd, r', hr'⟩ := (ih u2).mp ⟨r, hr⟩
        refine ⟨d + 1, by omega, r', ?_⟩
        rw [resolveChain_shift fp fu j url u2 hs d]
        exact hr'
      · intro ⟨d, hd, r', hr'⟩
        rw [hfuel]
        apply (ih u2).mpr
        cases d with
        | zero =>
          rw [show resolveChain fp fu j url 0 = url from rfl, hs] at hr'
          cases hr'
        | succ d' =>
          rw [resolveChain_shift fp fu j url u2 hs d'] at hr'
          exact ⟨d', by omega, r', hr'⟩

end M3u8
